import Mathlib

/-!
# tulibs: configuration store, FTDI listing tool, USB error codes

A shallow embedding of

* `posix/config/config.c`: the ordered key/value configuration store,
* `src/bin/ftdi/lsftdi.c`: the listing tool,
* `src/lib/usb/usb.h`: the USB error codes, the device lookup and the
  transfers declared there,

followed by the properties proved about them.

Conventions of the embedding.

* A C string is the list of its characters before the terminating NUL.
* A pointer that may be null is an `Option`; a pointer into an array is the
  index of the entry it points to.
* The pair `params` / `num_params` of `config_t` is the list of the first
  `num_params` entries of the array; `num_params` is the length of that list.
* A run whose behaviour the C standard leaves undefined (null pointer
  arithmetic, a write past a local buffer, a read past the argument vector)
  has no result: `none`.
* `malloc` and `realloc` are assumed to succeed.
-/

namespace Tulibs

/-! ## C strings -/

/-- The function `strlen` of the C library. -/
def strlen (s : List Char) : Nat :=
  s.length

/-- The function `strcmp` of the C library; only the sign of the result is
specified by the C standard, so the result is one of `-1`, `0`, `1`. -/
def strcmp : List Char → List Char → Int
  | [], [] => 0
  | [], _ :: _ => -1
  | _ :: _, [] => 1
  | a :: s, b :: t =>
    if a = b then strcmp s t else if a.toNat < b.toNat then -1 else 1

/-- The function `strncmp` of the C library: compares at most `n` characters. -/
def strncmp : List Char → List Char → Nat → Int
  | _, _, 0 => 0
  | [], [], _ + 1 => 0
  | [], _ :: _, _ + 1 => -1
  | _ :: _, [], _ + 1 => 1
  | a :: s, b :: t, n + 1 =>
    if a = b then strncmp s t n else if a.toNat < b.toNat then -1 else 1

/-- The function `strchr` of the C library: the offset of the first occurrence
of `c` in `s` (the terminating NUL counts as part of the string), or null. -/
def strchr : List Char → Char → Option Nat
  | [], c => if c = Char.ofNat 0 then some 0 else none
  | a :: s, c => if a = c then some 0 else (strchr s c).map (· + 1)

/-! ## Parameters (`param.h`, `param.c`) -/

/-- The type `param_t`: a key buffer of `PARAM_KEY_LENGTH` characters and a
value buffer of `PARAM_VALUE_LENGTH` characters, each holding a C string. -/
structure param_t where
  key : List Char
  value : List Char
deriving DecidableEq, Repr

/-- Modelled from the spec: `param.c` is not among the sources. The store is
a "key/value configuration store (set/get string, integer, float values by
key)": `param_init_string` fills a parameter with the given key and value. -/
def param_init_string (key value : List Char) : param_t :=
  { key := key, value := value }

/-- Modelled from the spec: `param.c` is not among the sources.
`param_set_string_value` replaces the value of a parameter and keeps its
key. -/
def param_set_string_value (param : param_t) (value : List Char) : param_t :=
  { param with value := value }

/-- Modelled from the spec: `param.c` is not among the sources.
`param_get_string_value` returns the value stored in a parameter. -/
def param_get_string_value (param : param_t) : List Char :=
  param.value

/-! ## The configuration store (`posix/config/config.c`) -/

/-- The type `config_t`: the array `params` with its `num_params` entries. -/
structure config_t where
  params : List param_t
deriving DecidableEq, Repr

/-- The field `num_params` of `config_t`. -/
def config_t.num_params (config : config_t) : Nat :=
  config.params.length

/-- The keys of a configuration, in the order of the array. -/
def config_t.keys (config : config_t) : List (List Char) :=
  config.params.map param_t.key

/-- The function `config_init`: no parameters. -/
def config_init : config_t :=
  { params := [] }

/-- The loop of `config_get_param`, from index `i` on, over the entries that
remain: the index of the first entry whose key compares equal to `key`. -/
def config_get_param_loop (key : List Char) : List param_t → Nat → Option Nat
  | [], _ => none
  | param :: rest, i =>
    if strcmp param.key key = 0 then some i
    else config_get_param_loop key rest (i + 1)

/-- The function `config_get_param`: a pointer to the first entry with the
given key, or null. -/
def config_get_param (config : config_t) (key : List Char) : Option Nat :=
  config_get_param_loop key config.params 0

/-- The function `config_set_param`: appends a copy of `param` when its key is
not found, and otherwise overwrites the value of the entry found. -/
def config_set_param (config : config_t) (param : param_t) : config_t :=
  match config_get_param config param.key with
  | none =>
    { params := config.params ++ [param_init_string param.key param.value] }
  | some i =>
    { params :=
        config.params.modify (fun p => param_set_string_value p param.value) i }

/-- The function `config_get_string`: `value` starts as the null pointer and
is replaced by the stored value when the key is found. -/
def config_get_string (config : config_t) (key : List Char) :
    Option (List Char) :=
  match config_get_param config key with
  | none => none
  | some i => (config.params[i]?).map param_get_string_value

/-- The function `config_get_int`: `value` starts as `0`. The conversion
`param_get_int_value` of `param.c` is not among the sources and is a
parameter. -/
def config_get_int (param_get_int_value : param_t → Int) (config : config_t)
    (key : List Char) : Int :=
  match (config_get_param config key).bind (fun i => config.params[i]?) with
  | none => 0
  | some param => param_get_int_value param

/-- The function `config_get_float`: `value` starts as `0.0`. The conversion
`param_get_float_value` of `param.c` is not among the sources and is a
parameter. -/
def config_get_float (param_get_float_value : param_t → Float)
    (config : config_t) (key : List Char) : Float :=
  match (config_get_param config key).bind (fun i => config.params[i]?) with
  | none => 0.0
  | some param => param_get_float_value param

/-- The body of the loop of `config_init_arg` for the argument `arg`.

`key_pos` is `arg` after the prefix and `n` is `value_pos - key_pos`. When
`strchr` finds no `=`, `value_pos` is null and `value_pos - key_pos` is
undefined. The test `if (value)` is made on the local array `value`, which is
never null, so `strcpy` always runs and the branch `value[0] = 0` is never
taken. The local buffers hold `PARAM_KEY_LENGTH` and `PARAM_VALUE_LENGTH`
characters, the terminating NUL included; both constants come from `param.h`,
which is not among the sources, and are parameters. -/
def config_init_arg_body (PARAM_KEY_LENGTH PARAM_VALUE_LENGTH : Nat)
    ( key_prefix : List Char) (config : config_t) (arg : List Char) :
    Option config_t :=
  if strncmp arg key_prefix (strlen key_prefix) = 0 then
    let key_pos := arg.drop (strlen key_prefix)
    match strchr key_pos '=' with
    | none => none
    | some n =>
      if n < PARAM_KEY_LENGTH ∧
          strlen (key_pos.drop (n + 1)) < PARAM_VALUE_LENGTH then
        let key := key_pos.take n
        let value := key_pos.drop (n + 1)
        some (config_set_param config (param_init_string key value))
      else none
  else some config

/-- The loop `for (i = ...; i < argc; ++i)` of `config_init_arg`, with
`argc - i` iterations left; `argv[i]` past the end of the vector is
undefined. -/
def config_init_arg_loop (PARAM_KEY_LENGTH PARAM_VALUE_LENGTH : Nat)
    (argv : List (List Char)) ( key_prefix : List Char) :
    Nat → Nat → config_t → Option config_t
  | 0, _, config => some config
  | left + 1, i, config =>
    match argv[i]? with
    | none => none
    | some arg =>
      match config_init_arg_body PARAM_KEY_LENGTH PARAM_VALUE_LENGTH
          key_prefix config arg with
      | none => none
      | some config' =>
        config_init_arg_loop PARAM_KEY_LENGTH PARAM_VALUE_LENGTH argv
          key_prefix left (i + 1) config'

/-- The function `config_init_arg`: `config_init`, then the loop from
`i = 1`. The result is the configuration written to `config`. -/
def config_init_arg (PARAM_KEY_LENGTH PARAM_VALUE_LENGTH : Nat) (argc : Int)
    (argv : List (List Char)) ( key_prefix : List Char) : Option config_t :=
  config_init_arg_loop PARAM_KEY_LENGTH PARAM_VALUE_LENGTH argv key_prefix
    (argc - 1).toNat 1 config_init

/-- The loop `for (i = ...; i < src_config->num_params; ++i)` of `config_set`
over the source entries that remain: `config_set_param` of each one on the
destination. -/
def config_set_loop : config_t → List param_t → config_t
  | dst_config, [] => dst_config
  | dst_config, param :: rest =>
    config_set_loop (config_set_param dst_config param) rest

/-- The function `config_set`, on two distinct configurations: the
destination and the source as the call leaves them. The source is only
read. -/
def config_set (dst_config src_config : config_t) : config_t × config_t :=
  (config_set_loop dst_config src_config.params, src_config)

/-- A call that changes a configuration: `config_set_param` with a parameter,
`config_set` with a source configuration, or `config_init_arg` with an
argument vector and a prefix. -/
inductive config_call where
  | set_param (param : param_t)
  | set (src_config : config_t)
  | init_arg (argc : Int) (argv : List (List Char)) ( key_prefix : List Char)
deriving Repr

/-- The configuration after one call; `none` when the call is undefined. -/
def config_call.run (PARAM_KEY_LENGTH PARAM_VALUE_LENGTH : Nat) :
    config_call → config_t → Option config_t
  | config_call.set_param param, config => some (config_set_param config param)
  | config_call.set src_config, config => some (config_set config src_config).1
  | config_call.init_arg argc argv key_prefix, _ =>
    config_init_arg PARAM_KEY_LENGTH PARAM_VALUE_LENGTH argc argv key_prefix

/-- The configuration after a sequence of calls, made in list order. -/
def config_calls (PARAM_KEY_LENGTH PARAM_VALUE_LENGTH : Nat) :
    List config_call → config_t → Option config_t
  | [], config => some config
  | call :: rest, config =>
    match call.run PARAM_KEY_LENGTH PARAM_VALUE_LENGTH config with
    | none => none
    | some config' => config_calls PARAM_KEY_LENGTH PARAM_VALUE_LENGTH rest config'

/-- A call whose behaviour is defined: for `config_init_arg`, `argc` is the
length of the argument vector and every argument after `argv[0]` that starts
with the prefix holds an `=` after it and fits the two buffers. -/
def config_call.defined (PARAM_KEY_LENGTH PARAM_VALUE_LENGTH : Nat) :
    config_call → Prop
  | config_call.set_param _ => True
  | config_call.set _ => True
  | config_call.init_arg argc argv key_prefix =>
    argc = argv.length ∧
      ∀ arg ∈ argv.drop 1, strncmp arg key_prefix (strlen key_prefix) = 0 →
        ∃ key value, arg = key_prefix ++ key ++ '=' :: value ∧ '=' ∉ key ∧
          strlen key < PARAM_KEY_LENGTH ∧ strlen value < PARAM_VALUE_LENGTH

/-! ## The listing tool (`src/bin/ftdi/lsftdi.c`) -/

/-- A call that `main` of `lsftdi.c` makes on `stdout`: `ftdi_print` of a
device, or `fprintf` of a text. -/
inductive stdout_call (ftdi_device_t : Type) where
  | ftdi_print (dev : ftdi_device_t)
  | fprintf (text : String)
deriving DecidableEq, Repr

/-- The loop `for (i = 0; i < num_devices; ++i) ftdi_print(stdout,
&devices[i])` of `main`, over the devices that remain. -/
def main_loop {ftdi_device_t : Type} :
    List ftdi_device_t → List (stdout_call ftdi_device_t)
  | [] => []
  | dev :: rest => stdout_call.ftdi_print dev :: main_loop rest

/-- The function `main` of `lsftdi.c`: the calls it makes on `stdout` and its
return value.

`config_parser_parse` (called with `config_parser_exit_both`) and
`ftdi_context_init` are not among the sources and are parameters:
`config_parser_parse argc argv` is `true` when the parser returns to `main`
and `false` when it ends the process instead, in which case `main` has no
result; `ftdi_context_init` is the device list that the default context holds
after the call. -/
def main {ftdi_device_t : Type}
    (config_parser_parse : Int → List (List Char) → Bool)
    (ftdi_context_init : List ftdi_device_t) (argc : Int)
    (argv : List (List Char)) :
    Option (List (stdout_call ftdi_device_t) × Int) :=
  if config_parser_parse argc argv then
    let devices := ftdi_context_init
    if devices.length ≠ 0 then some (main_loop devices, 0)
    else some ([stdout_call.fprintf "No devices found.\n"], 0)
  else none

/-! ## USB error codes and device lookup (`src/lib/usb/usb.h`) -/

def USB_ERROR_NONE : Int := 0
def USB_ERROR_IO : Int := 1
def USB_ERROR_INVALID_PARAMETER : Int := 2
def USB_ERROR_ACCESS : Int := 3
def USB_ERROR_NO_DEVICE : Int := 4
def USB_ERROR_NOT_FOUND : Int := 5
def USB_ERROR_BUSY : Int := 6
def USB_ERROR_TIMEOUT : Int := 7
def USB_ERROR_OVERFLOW : Int := 8
def USB_ERROR_PIPE : Int := 9
def USB_ERROR_INTERRUPTED : Int := 10
def USB_ERROR_NO_MEMORY : Int := 11
def USB_ERROR_NOT_SUPPORTED : Int := 12
def USB_ERROR_OTHER : Int := 13
def USB_ERROR_INVALID_CONTEXT : Int := 14

/-- The block "Error Codes" of `usb.h`: every macro it defines, with its name
and value, in the order of the header. -/
def usb_error_codes : List (String × Int) :=
  [ ("USB_ERROR_NONE", USB_ERROR_NONE),
    ("USB_ERROR_IO", USB_ERROR_IO),
    ("USB_ERROR_INVALID_PARAMETER", USB_ERROR_INVALID_PARAMETER),
    ("USB_ERROR_ACCESS", USB_ERROR_ACCESS),
    ("USB_ERROR_NO_DEVICE", USB_ERROR_NO_DEVICE),
    ("USB_ERROR_NOT_FOUND", USB_ERROR_NOT_FOUND),
    ("USB_ERROR_BUSY", USB_ERROR_BUSY),
    ("USB_ERROR_TIMEOUT", USB_ERROR_TIMEOUT),
    ("USB_ERROR_OVERFLOW", USB_ERROR_OVERFLOW),
    ("USB_ERROR_PIPE", USB_ERROR_PIPE),
    ("USB_ERROR_INTERRUPTED", USB_ERROR_INTERRUPTED),
    ("USB_ERROR_NO_MEMORY", USB_ERROR_NO_MEMORY),
    ("USB_ERROR_NOT_SUPPORTED", USB_ERROR_NOT_SUPPORTED),
    ("USB_ERROR_OTHER", USB_ERROR_OTHER),
    ("USB_ERROR_INVALID_CONTEXT", USB_ERROR_INVALID_CONTEXT) ]

/-- The failure codes of `usb.h`: the codes other than `USB_ERROR_NONE`. -/
def usb_failure_codes : List (String × Int) :=
  usb_error_codes.filter (fun e => decide (e.2 ≠ USB_ERROR_NONE))

/-- The failure kinds as section 4.4 of the specification lists them. -/
def spec_failure_kinds : List String :=
  [ "IO", "InvalidParameter", "Access", "NoDevice", "NotFound", "Busy",
    "Timeout", "Overflow", "Pipe", "Interrupted", "NoMemory", "NotSupported",
    "Other", "InvalidContext" ]

/-- Upper-case snake form of a camel-case word: an underscore goes between a
lower-case letter and the upper-case letter after it. -/
def upper_snake : List Char → List Char
  | [] => []
  | [c] => [c.toUpper]
  | c :: d :: rest =>
    if c.isLower ∧ d.isUpper then c.toUpper :: '_' :: upper_snake (d :: rest)
    else c.toUpper :: upper_snake (d :: rest)

/-- The name of the macro of `usb.h` for an error kind of the specification:
`USB_ERROR_` followed by the upper-case snake form of the kind. -/
def usb_error_name (kind : String) : String :=
  String.mk ("USB_ERROR_".toList ++ upper_snake kind.toList)

/-- Modelled from the spec: `usb.c`, with the bodies of the transfer
functions, is not among the sources. The spec (section 4.3) and the
documentation of the declarations in `usb.h` ("the negative error code") give
the value a transfer returns when it fails with the error code `error`. -/
def usb_transfer_failure (error : Int) : Int :=
  -error

/-- The type `usb_class_t`. -/
inductive usb_class_t where
  | usb_class_per_interface
  | usb_class_audio
  | usb_class_comm
  | usb_class_hid
  | usb_class_physical
  | usb_class_image
  | usb_class_printer
  | usb_class_mass_storage
  | usb_class_hub
  | usb_class_data
  | usb_class_smart_card
  | usb_class_content_security
  | usb_class_video
  | usb_class_healthcare
  | usb_class_diagnostic
  | usb_class_wireless
  | usb_class_application
  | usb_class_vendor
  | usb_class_unknown
deriving DecidableEq, Repr

/-- The type `usb_device_t`. The pointers `libusb_device` and `libusb_handle`
are opaque numbers (`libusb_handle` is null while the device is closed);
`error` is the error code of the `error_t` of `error/error.h`, which is not
among the sources. -/
structure usb_device_t where
  libusb_device : Nat
  libusb_handle : Option Nat
  bus : Int
  address : Int
  vendor_id : Int
  product_id : Int
  class_ : usb_class_t
  timeout : Float
  num_read : Nat
  num_written : Nat
  error : Int
deriving Repr

/-- The type `usb_context_t`, reduced to its device list: `devices` with its
`num_devices` entries. -/
structure usb_context_t where
  devices : List usb_device_t
deriving Repr

/-- Modelled from the spec: `usb.c` is not among the sources, `usb.h` only
declares the function ("The first matching device or null"). The loop scans
the device list in list order, from index `i` on, for "the first Device (in
list order) whose vendor/product IDs both match". -/
def usb_context_match_vendor_product_loop (vendor_id product_id : Int) :
    List usb_device_t → Nat → Option Nat
  | [], _ => none
  | dev :: rest, i =>
    if dev.vendor_id = vendor_id ∧ dev.product_id = product_id then some i
    else usb_context_match_vendor_product_loop vendor_id product_id rest (i + 1)

/-- Modelled from the spec: `usb.c` is not among the sources.
`usb_context_match_vendor_product` "returns the first Device (in list order)
whose vendor/product IDs both match, or none"; the result is the index of the
entry it points to. -/
def usb_context_match_vendor_product (context : usb_context_t)
    (vendor_id product_id : Int) : Option Nat :=
  usb_context_match_vendor_product_loop vendor_id product_id context.devices 0

theorem strcmp_eq_zero_iff (a b : List Char) : strcmp a b = 0 ↔ a = b := by
  induction a generalizing b with
  | nil => cases b <;> simp [strcmp]
  | cons x s ih =>
    cases b with
    | nil => simp [strcmp]
    | cons y t =>
      by_cases hxy : x = y
      · simp [strcmp, hxy, ih]
      · by_cases hlt : x.toNat < y.toNat <;> simp [strcmp, hxy, hlt]

theorem strncmp_eq_zero_iff (a b : List Char) (n : Nat) :
    strncmp a b n = 0 ↔ a.take n = b.take n := by
  induction n generalizing a b with
  | zero => simp [strncmp]
  | succ n ih =>
    cases a with
    | nil => cases b <;> simp [strncmp]
    | cons x s =>
      cases b with
      | nil => simp [strncmp]
      | cons y t =>
        by_cases hxy : x = y
        · simp [strncmp, hxy, ih]
        · by_cases hlt : x.toNat < y.toNat <;> simp [strncmp, hxy, hlt]

theorem strncmp_strlen_eq_zero_iff (a p : List Char) :
    strncmp a p (strlen p) = 0 ↔ p <+: a := by
  rw [strncmp_eq_zero_iff, strlen, List.take_length]
  constructor
  · intro h
    rw [← h]
    exact List.take_prefix _ _
  · intro h
    exact List.prefix_iff_eq_take.mp h |>.symm

theorem strchr_eq_none_iff (s : List Char) (c : Char) (hc : c ≠ Char.ofNat 0) :
    strchr s c = none ↔ c ∉ s := by
  induction s with
  | nil => simp [strchr, hc]
  | cons x s ih =>
    by_cases hx : x = c
    · simp [strchr, hx]
    · have hx' : ¬ c = x := fun h => hx h.symm
      simp [strchr, hx, hx', ih]

theorem strchr_eq_some_iff (s : List Char) (c : Char) (hc : c ≠ Char.ofNat 0)
    (n : Nat) :
    strchr s c = some n ↔ c ∉ s.take n ∧ s.drop n = c :: s.drop (n + 1) := by
  induction s generalizing n with
  | nil => simp [strchr, hc]
  | cons x s ih =>
    by_cases hx : x = c
    · subst hx
      cases n with
      | zero => simp [strchr]
      | succ n => simp [strchr]
    · have hx' : ¬ c = x := fun h => hx h.symm
      cases n with
      | zero => simp [strchr, hx]
      | succ n =>
        simp only [strchr, hx, if_false, Option.map_eq_some', List.take_succ_cons,
          List.mem_cons, List.drop_succ_cons, hx', false_or]
        constructor
        · rintro ⟨m, hm, hmn⟩
          have : m = n := by omega
          subst this
          exact (ih m).mp hm
        · intro h
          exact ⟨n, (ih n).mpr h, rfl⟩

theorem strchr_append (k v : List Char) (c : Char) (hc : c ≠ Char.ofNat 0)
    (hk : c ∉ k) : strchr (k ++ c :: v) c = some k.length := by
  rw [strchr_eq_some_iff _ _ hc]
  simp [hk]

/-! ## The configuration store: facts -/

theorem config_get_param_loop_succ (key : List Char) (params : List param_t)
    (i : Nat) :
    config_get_param_loop key params (i + 1) =
      (config_get_param_loop key params i).map (· + 1) := by
  induction params generalizing i with
  | nil => simp [config_get_param_loop]
  | cons p rest ih =>
    by_cases h : strcmp p.key key = 0
    · simp [config_get_param_loop, h]
    · simp [config_get_param_loop, h, ih]

theorem config_get_param_nil (key : List Char) :
    config_get_param { params := [] } key = none := by
  simp [config_get_param, config_get_param_loop]

theorem config_get_param_cons (p : param_t) (rest : List param_t)
    (key : List Char) :
    config_get_param { params := p :: rest } key =
      if p.key = key then some 0
      else (config_get_param { params := rest } key).map (· + 1) := by
  by_cases h : p.key = key
  · simp [config_get_param, config_get_param_loop, h, strcmp_eq_zero_iff]
  · simp [config_get_param, config_get_param_loop, h, strcmp_eq_zero_iff,
      config_get_param_loop_succ]

theorem config_get_param_eq_none_iff (config : config_t) (key : List Char) :
    config_get_param config key = none ↔ ∀ p ∈ config.params, p.key ≠ key := by
  obtain ⟨params⟩ := config
  induction params with
  | nil => simp [config_get_param_nil]
  | cons p rest ih =>
    rw [config_get_param_cons]
    by_cases h : p.key = key
    · simp [h]
    · simp [h, ih]

theorem config_get_param_eq_some_iff (config : config_t) (key : List Char)
    (i : Nat) :
    config_get_param config key = some i ↔
      (∃ p, config.params[i]? = some p ∧ p.key = key) ∧
        ∀ j p, j < i → config.params[j]? = some p → p.key ≠ key := by
  obtain ⟨params⟩ := config
  induction params generalizing i with
  | nil => simp [config_get_param_nil]
  | cons q rest ih =>
    rw [config_get_param_cons]
    by_cases h : q.key = key
    · cases i with
      | zero => simp [h]
      | succ i =>
        simp only [h, if_true, Option.some.injEq]
        constructor
        · intro h0
          omega
        · rintro ⟨-, hmin⟩
          exact absurd h (hmin 0 q (by omega) (by simp))
    · cases i with
      | zero => simp [h]
      | succ i =>
        simp only [h, if_false, Option.map_eq_some', add_left_inj, exists_eq_right,
          ih, List.getElem?_cons_succ]
        constructor
        · rintro ⟨hex, hmin⟩
          refine ⟨hex, ?_⟩
          intro j p hj hp
          cases j with
          | zero =>
            simp at hp
            subst hp
            exact h
          | succ j =>
            simp at hp
            exact hmin j p (by omega) hp
        · rintro ⟨hex, hmin⟩
          refine ⟨hex, ?_⟩
          intro j p hj hp
          exact hmin (j + 1) p (by omega) (by simpa using hp)

theorem config_set_param_nil (param : param_t) :
    config_set_param { params := [] } param = { params := [param] } := by
  simp [config_set_param, config_get_param_nil, param_init_string]

theorem config_set_param_cons (p : param_t) (rest : List param_t)
    (param : param_t) :
    config_set_param { params := p :: rest } param =
      if p.key = param.key then
        { params := { key := p.key, value := param.value } :: rest }
      else { params := p :: (config_set_param { params := rest } param).params } := by
  unfold config_set_param
  rw [config_get_param_cons]
  by_cases h : p.key = param.key
  · simp [h, param_set_string_value]
  · cases hr : config_get_param { params := rest } param.key <;>
      simp [h, hr]

theorem config_get_string_nil (key : List Char) :
    config_get_string { params := [] } key = none := by
  simp [config_get_string, config_get_param_nil]

theorem config_get_string_cons (p : param_t) (rest : List param_t)
    (key : List Char) :
    config_get_string { params := p :: rest } key =
      if p.key = key then some p.value
      else config_get_string { params := rest } key := by
  unfold config_get_string
  rw [config_get_param_cons]
  by_cases h : p.key = key
  · simp [h, param_get_string_value]
  · cases hr : config_get_param { params := rest } key <;> simp [h, hr]

/-! ## Lookup of a key that is absent -/

/-- C1 (as amended): for every configuration and every key that is not
present in it, `config_get_string` returns the null pointer: its `value`
starts as `0` and is only replaced when the key is found. -/
theorem config_get_string_absent (config : config_t) (key : List Char)
    (habsent : ∀ p ∈ config.params, p.key ≠ key) :
    config_get_string config key = none := by
  have h := (config_get_param_eq_none_iff config key).mpr habsent
  simp [config_get_string, h]

theorem config_get_string_absent_witness :
    config_get_string
      { params := [{ key := "timeout".toList, value := "1".toList }] }
      "debug".toList = none :=
  config_get_string_absent
    { params := [{ key := "timeout".toList, value := "1".toList }] }
    "debug".toList (by decide)

/-- C1 (as stated) fails: in the empty configuration the key `debug` is
absent, and `config_get_string` returns the null pointer, not the empty
string. -/
theorem config_get_string_absent_not_empty :
    (∀ p ∈ config_init.params, p.key ≠ "debug".toList) ∧
      config_get_string config_init "debug".toList ≠ some [] := by
  decide

/-- C2: for every configuration and every key that is not present in it,
`config_get_int` returns `0` and `config_get_float` returns `0.0`, whatever
the conversions of `param.c` are. -/
theorem config_get_int_float_absent (param_get_int_value : param_t → Int)
    (param_get_float_value : param_t → Float) (config : config_t)
    (key : List Char) (habsent : ∀ p ∈ config.params, p.key ≠ key) :
    config_get_int param_get_int_value config key = 0 ∧
      config_get_float param_get_float_value config key = 0.0 := by
  have h := (config_get_param_eq_none_iff config key).mpr habsent
  simp [config_get_int, config_get_float, h]

theorem config_get_int_float_absent_witness :
    config_get_int (fun _ => 7)
        { params := [{ key := "timeout".toList, value := "1".toList }] }
        "debug".toList = 0 ∧
      config_get_float (fun _ => 7.5)
        { params := [{ key := "timeout".toList, value := "1".toList }] }
        "debug".toList = 0.0 :=
  config_get_int_float_absent (fun _ => 7) (fun _ => 7.5)
    { params := [{ key := "timeout".toList, value := "1".toList }] }
    "debug".toList (by decide)

/-! ## Setting a parameter -/

/-- C3: for every configuration and every parameter (a key and a value
within the length limits of `param_t`), `config_get_string` for the key of
the parameter returns exactly its value after `config_set_param`, whether or
not the key was present before. -/
theorem config_set_param_get_string (config : config_t) (param : param_t) :
    config_get_string (config_set_param config param) param.key =
      some param.value := by
  obtain ⟨params⟩ := config
  induction params with
  | nil => simp [config_set_param_nil, config_get_string_cons]
  | cons p rest ih =>
    rw [config_set_param_cons]
    by_cases h : p.key = param.key
    · simp [h, config_get_string_cons]
    · simp only [h, if_false, config_get_string_cons]
      exact ih

theorem config_set_param_absent (config : config_t) (param : param_t)
    (habsent : ∀ p ∈ config.params, p.key ≠ param.key) :
    (config_set_param config param).params = config.params ++ [param] := by
  have h := (config_get_param_eq_none_iff config param.key).mpr habsent
  simp [config_set_param, h, param_init_string]

theorem config_set_param_present (config : config_t) (param : param_t) (i : Nat)
    (old : param_t) (hold : config.params[i]? = some old)
    (hi : config_get_param config param.key = some i) :
    (config_set_param config param).params =
      config.params.set i { key := old.key, value := param.value } := by
  simp only [config_set_param, hi]
  rw [List.modify_eq_set_get?, List.get?_eq_getElem?, hold]
  simp [param_set_string_value]

/-- C4: `config_set_param` changes only the entry for the given key and keeps
the store ordered. Every entry with another key keeps its key, value and
position. If the key was absent, the parameter is appended last and
`num_params` grows by exactly one. If the key was present, `num_params` and
the order of the keys are unchanged, and the array is the old one with the
value of the first entry for the key replaced: every other position holds
the entry it held before. -/
theorem config_set_param_frame (config : config_t) (param : param_t) :
    (∀ (j : Nat) (p : param_t), config.params[j]? = some p → p.key ≠ param.key →
        (config_set_param config param).params[j]? = some p) ∧
      ((∀ p ∈ config.params, p.key ≠ param.key) →
        (config_set_param config param).params = config.params ++ [param] ∧
          (config_set_param config param).num_params =
            config.num_params + 1) ∧
      ((∃ p ∈ config.params, p.key = param.key) →
        (config_set_param config param).num_params = config.num_params ∧
          (config_set_param config param).keys = config.keys ∧
          ∃ i old, config.params[i]? = some old ∧ old.key = param.key ∧
            (∀ (j : Nat) (p : param_t), j < i → config.params[j]? = some p →
              p.key ≠ param.key) ∧
            (config_set_param config param).params =
              config.params.set i { key := old.key, value := param.value } ∧
            ∀ j : Nat, j ≠ i →
              (config_set_param config param).params[j]? =
                config.params[j]?) := by
  have hpresent : (∃ p ∈ config.params, p.key = param.key) →
      ∃ i old, config_get_param config param.key = some i ∧
        config.params[i]? = some old ∧ old.key = param.key ∧
        (∀ (j : Nat) (p : param_t), j < i → config.params[j]? = some p →
              p.key ≠ param.key) := by
    intro hex
    cases hg : config_get_param config param.key with
    | none =>
      obtain ⟨p, hp, hk⟩ := hex
      exact absurd hk ((config_get_param_eq_none_iff config param.key).mp hg p hp)
    | some i =>
      obtain ⟨⟨old, hold, hkey⟩, hmin⟩ :=
        (config_get_param_eq_some_iff config param.key i).mp hg
      exact ⟨i, old, rfl, hold, hkey, hmin⟩
  refine ⟨?_, ?_, ?_⟩
  · intro j p hj hne
    cases hg : config_get_param config param.key with
    | none =>
      have habsent := (config_get_param_eq_none_iff config param.key).mp hg
      rw [config_set_param_absent config param habsent]
      have hlt : j < config.params.length := by
        by_contra hge
        rw [List.getElem?_eq_none (by omega)] at hj
        exact Option.noConfusion hj
      rw [List.getElem?_append_left hlt]
      exact hj
    | some i =>
      obtain ⟨⟨old, hold, hkey⟩, -⟩ :=
        (config_get_param_eq_some_iff config param.key i).mp hg
      rw [config_set_param_present config param i old hold hg]
      have hij : i ≠ j := by
        intro hij
        subst hij
        rw [hold] at hj
        cases hj
        exact hne hkey
      rw [List.getElem?_set_ne hij]
      exact hj
  · intro habsent
    have h := config_set_param_absent config param habsent
    refine ⟨h, ?_⟩
    simp [config_t.num_params, h]
  · intro hex
    obtain ⟨i, old, hg, hold, hkey, hmin⟩ := hpresent hex
    have h := config_set_param_present config param i old hold hg
    refine ⟨?_, ?_, i, old, hold, hkey, hmin, h, ?_⟩
    · simp [config_t.num_params, h]
    · simp only [config_t.keys, h]
      rw [List.map_set]
      apply List.ext_getElem?
      intro n
      by_cases hn : i = n
      · subst hn
        have hlt : i < config.params.length := by
          by_contra hge
          rw [List.getElem?_eq_none (by omega)] at hold
          exact Option.noConfusion hold
        rw [List.getElem?_set_self (by simpa using hlt)]
        simp [hold]
      · rw [List.getElem?_set_ne hn]
    · intro j hj
      rw [h, List.getElem?_set_ne (Ne.symm hj)]

/-! ## Reading the argument vector: facts -/

theorem config_init_arg_body_no_match (KL VL : Nat) ( key_prefix : List Char)
    (config : config_t) (arg : List Char)
    (h : strncmp arg key_prefix (strlen key_prefix) ≠ 0) :
    config_init_arg_body KL VL key_prefix config arg = some config := by
  simp [config_init_arg_body, h]

theorem config_init_arg_body_form (KL VL : Nat) ( key_prefix : List Char)
    (config : config_t) (key value : List Char) (hkey : '=' ∉ key)
    (hk : strlen key < KL) (hv : strlen value < VL) :
    config_init_arg_body KL VL key_prefix config
        ( key_prefix ++ key ++ '=' :: value) =
      some (config_set_param config { key := key, value := value }) := by
  have hpre : strncmp ( key_prefix ++ key ++ '=' :: value) key_prefix
      (strlen key_prefix) = 0 := by
    rw [strncmp_strlen_eq_zero_iff, List.append_assoc]
    exact List.prefix_append _ _
  have hdrop : ( key_prefix ++ key ++ '=' :: value).drop (strlen key_prefix) =
      key ++ '=' :: value := by
    simp [strlen, List.append_assoc]
  have hchr : strchr (key ++ '=' :: value) '=' = some key.length :=
    strchr_append key value '=' (by decide) hkey
  have htake : (key ++ '=' :: value).take key.length = key := by simp
  have hrest : (key ++ '=' :: value).drop (key.length + 1) = value := by
    rw [← List.drop_drop]
    simp
  unfold config_init_arg_body
  rw [if_pos hpre]
  simp only [hdrop, hchr, htake, hrest]
  rw [if_pos ⟨hk, hv⟩]
  rfl

theorem config_init_arg_body_some (KL VL : Nat) ( key_prefix : List Char)
    (config config' : config_t) (arg : List Char)
    (h : config_init_arg_body KL VL key_prefix config arg = some config') :
    (strncmp arg key_prefix (strlen key_prefix) ≠ 0 ∧ config' = config) ∨
      ∃ key value, arg = key_prefix ++ key ++ '=' :: value ∧ '=' ∉ key ∧
        config' = config_set_param config { key := key, value := value } := by
  by_cases hpre : strncmp arg key_prefix (strlen key_prefix) = 0
  · right
    have hp := (strncmp_strlen_eq_zero_iff arg key_prefix).mp hpre
    have harg := List.prefix_iff_eq_append.mp hp
    simp only [config_init_arg_body, hpre, if_true] at h
    cases hchr : strchr (arg.drop (strlen key_prefix)) '=' with
    | none => simp [hchr] at h
    | some n =>
      simp only [hchr] at h
      split at h
      · obtain ⟨hnot, hsplit⟩ :=
          (strchr_eq_some_iff _ '=' (by decide) n).mp hchr
        refine ⟨(arg.drop (strlen key_prefix)).take n,
          (arg.drop (strlen key_prefix)).drop (n + 1), ?_, hnot, ?_⟩
        · rw [List.append_assoc, ← hsplit, List.take_append_drop]
          exact harg.symm
        · simpa [param_init_string] using h.symm
      · exact Option.noConfusion h
  · left
    rw [config_init_arg_body_no_match KL VL key_prefix config arg hpre] at h
    exact ⟨hpre, (Option.some.inj h).symm⟩

theorem config_init_arg_loop_eq_foldlM (KL VL : Nat) (argv : List (List Char))
    ( key_prefix : List Char) (left i : Nat) (config : config_t)
    (hleft : left = argv.length - i) :
    config_init_arg_loop KL VL argv key_prefix left i config =
      (argv.drop i).foldlM (config_init_arg_body KL VL key_prefix) config := by
  induction left generalizing i config with
  | zero =>
    have hdrop : argv.drop i = [] := List.drop_eq_nil_of_le (by omega)
    simp [config_init_arg_loop, hdrop]
  | succ left ih =>
    have hi : i < argv.length := by omega
    rw [List.drop_eq_getElem_cons hi, List.foldlM_cons]
    simp only [config_init_arg_loop, List.getElem?_eq_getElem hi]
    cases hbody : config_init_arg_body KL VL key_prefix config argv[i] with
    | none => simp
    | some config' =>
      simp only [Option.bind_eq_bind, Option.some_bind]
      exact ih (i + 1) config' (by omega)

theorem config_init_arg_eq_foldlM (KL VL : Nat) (argv : List (List Char))
    ( key_prefix : List Char) :
    config_init_arg KL VL argv.length argv key_prefix =
      (argv.drop 1).foldlM (config_init_arg_body KL VL key_prefix)
        config_init := by
  unfold config_init_arg
  apply config_init_arg_loop_eq_foldlM
  omega

theorem config_init_arg_foldlM_filter (KL VL : Nat) ( key_prefix : List Char)
    (args : List (List Char)) (config : config_t) :
    args.foldlM (config_init_arg_body KL VL key_prefix) config =
      (args.filter
          (fun a => decide (strncmp a key_prefix (strlen key_prefix) = 0))).foldlM
        (config_init_arg_body KL VL key_prefix) config := by
  induction args generalizing config with
  | nil => rfl
  | cons a rest ih =>
    by_cases hpre : strncmp a key_prefix (strlen key_prefix) = 0
    · rw [List.filter_cons]
      simp only [hpre, decide_True, if_true, List.foldlM_cons]
      cases hbody : config_init_arg_body KL VL key_prefix config a with
      | none => simp
      | some config' =>
        simp only [Option.bind_eq_bind, Option.some_bind]
        exact ih config'
    · rw [List.filter_cons]
      simp only [hpre, decide_False, List.foldlM_cons,
        config_init_arg_body_no_match KL VL key_prefix config a hpre]
      simpa using ih config

theorem config_set_param_mem (config : config_t) (param p : param_t)
    (hp : p ∈ (config_set_param config param).params) :
    p ∈ config.params ∨ p = param := by
  obtain ⟨params⟩ := config
  induction params with
  | nil =>
    rw [config_set_param_nil] at hp
    right
    simpa using hp
  | cons q rest ih =>
    rw [config_set_param_cons] at hp
    by_cases h : q.key = param.key
    · simp only [h, if_true, List.mem_cons] at hp
      rcases hp with hp | hp
      · right
        rw [hp]
      · left
        exact List.mem_cons_of_mem _ hp
    · simp only [h, if_false, List.mem_cons] at hp
      rcases hp with hp | hp
      · left
        rw [hp]
        exact List.mem_cons_self _ _
      · rcases ih hp with h1 | h1
        · left
          exact List.mem_cons_of_mem _ h1
        · right
          exact h1

theorem config_init_arg_foldlM_mem (KL VL : Nat) ( key_prefix : List Char)
    (args : List (List Char)) (config config' : config_t)
    (h : args.foldlM (config_init_arg_body KL VL key_prefix) config =
      some config')
    (p : param_t) (hp : p ∈ config'.params) :
    p ∈ config.params ∨ key_prefix ++ p.key ++ '=' :: p.value ∈ args := by
  induction args generalizing config with
  | nil =>
    simp only [List.foldlM_nil, Option.pure_def, Option.some.injEq] at h
    left
    rw [h]
    exact hp
  | cons a rest ih =>
    rw [List.foldlM_cons] at h
    cases hbody : config_init_arg_body KL VL key_prefix config a with
    | none => simp [hbody] at h
    | some config1 =>
      simp only [hbody, Option.bind_eq_bind, Option.some_bind] at h
      rcases ih config1 h with h1 | h1
      · rcases config_init_arg_body_some KL VL key_prefix config config1 a hbody
          with ⟨-, heq⟩ | ⟨key, value, harg, -, heq⟩
        · left
          rw [← heq]
          exact h1
        · rw [heq] at h1
          rcases config_set_param_mem config _ p h1 with h2 | h2
          · left
            exact h2
          · right
            rw [h2, ← harg]
            exact List.mem_cons_self _ _
      · right
        exact List.mem_cons_of_mem _ h1

/-- C5: the key-prefix filter of `config_init_arg`, for every argument vector
(`argc` being its length) and every prefix. The result is the one obtained
from the vector that keeps, after any `argv[0]`, only the arguments at
positions `1` and up that start with the prefix: the other arguments and
`argv[0]` contribute nothing. Every parameter of the resulting configuration
is the key and value of an argument at a position `i >= 1` that starts with
the prefix. When no argument at a position `i >= 1` starts with the prefix,
the resulting configuration is empty. -/
theorem config_init_arg_filter (KL VL : Nat) (argv : List (List Char))
    ( key_prefix : List Char) :
    (∀ argv0 : List Char,
        config_init_arg KL VL argv.length argv key_prefix =
          config_init_arg KL VL
            (argv0 :: argv.tail.filter (fun a =>
              decide (strncmp a key_prefix (strlen key_prefix) = 0))).length
            (argv0 :: argv.tail.filter (fun a =>
              decide (strncmp a key_prefix (strlen key_prefix) = 0)))
            key_prefix) ∧
      (∀ config, config_init_arg KL VL argv.length argv key_prefix =
          some config →
        ∀ p ∈ config.params, ∃ i : Nat, 1 ≤ i ∧
          argv[i]? = some ( key_prefix ++ p.key ++ '=' :: p.value)) ∧
      ((∀ (i : Nat) (arg : List Char), 1 ≤ i → argv[i]? = some arg →
          strncmp arg key_prefix (strlen key_prefix) ≠ 0) →
        config_init_arg KL VL argv.length argv key_prefix =
          some config_init) := by
  refine ⟨?_, ?_, ?_⟩
  · intro argv0
    rw [config_init_arg_eq_foldlM, config_init_arg_eq_foldlM,
      config_init_arg_foldlM_filter, List.drop_one]
    simp
  · intro config h p hp
    rw [config_init_arg_eq_foldlM] at h
    rcases config_init_arg_foldlM_mem KL VL key_prefix _ _ _ h p hp
      with h1 | h1
    · simp [config_init] at h1
    · obtain ⟨n, hn⟩ := List.mem_iff_getElem?.mp h1
      rw [List.getElem?_drop] at hn
      exact ⟨1 + n, by omega, hn⟩
  · intro hnone
    rw [config_init_arg_eq_foldlM, config_init_arg_foldlM_filter]
    have hfilter : (argv.drop 1).filter
        (fun a => decide (strncmp a key_prefix (strlen key_prefix) = 0)) = [] := by
      rw [List.filter_eq_nil_iff]
      intro a ha
      obtain ⟨n, hn⟩ := List.mem_iff_getElem?.mp ha
      rw [List.getElem?_drop] at hn
      simpa using hnone (1 + n) a (by omega) hn
    rw [hfilter]
    rfl

theorem config_init_arg_filter_witness :
    config_init_arg 8 8 4
        ["--z=0".toList, "--a=1".toList, "x".toList, "--b=2".toList]
        "--".toList =
      config_init_arg 8 8 3 ["lsftdi".toList, "--a=1".toList, "--b=2".toList]
        "--".toList ∧
    config_init_arg 8 8 2 ["--z=0".toList, "x".toList] "--".toList =
      some config_init := by
  have h := config_init_arg_filter 8 8
    ["--z=0".toList, "--a=1".toList, "x".toList, "--b=2".toList] "--".toList
  have h' := config_init_arg_filter 8 8 ["--z=0".toList, "x".toList]
    "--".toList
  refine ⟨h.1 "lsftdi".toList, h'.2.2 ?_⟩
  intro i arg hi harg
  match i, hi with
  | 1, _ =>
    simp at harg
    subst harg
    decide
  | n + 2, _ => simp at harg

theorem config_set_param_keys (config : config_t) (param : param_t) :
    (config_set_param config param).keys =
      if param.key ∈ config.keys then config.keys
      else config.keys ++ [param.key] := by
  obtain ⟨params⟩ := config
  induction params with
  | nil => simp [config_set_param_nil, config_t.keys]
  | cons q rest ih =>
    rw [config_set_param_cons]
    by_cases h : q.key = param.key
    · simp [h, config_t.keys]
    · have h' : ¬ param.key = q.key := fun e => h e.symm
      simp only [config_t.keys] at ih
      simp only [h, if_false, config_t.keys, List.map_cons, ih, List.mem_cons,
        h', false_or]
      split <;> simp

theorem config_get_string_set_param_self (config : config_t)
    (key value : List Char) :
    config_get_string (config_set_param config { key := key, value := value })
      key = some value := by
  obtain ⟨params⟩ := config
  induction params with
  | nil => simp [config_set_param_nil, config_get_string_cons]
  | cons p rest ih =>
    rw [config_set_param_cons]
    by_cases h : p.key = key
    · simp [h, config_get_string_cons]
    · simpa only [h, if_false, config_get_string_cons] using ih

theorem config_get_string_set_param_ne (config : config_t) (param : param_t)
    (key : List Char) (hne : key ≠ param.key) :
    config_get_string (config_set_param config param) key =
      config_get_string config key := by
  obtain ⟨params⟩ := config
  induction params with
  | nil =>
    have h' : ¬ param.key = key := fun e => hne e.symm
    simp [config_set_param_nil, config_get_string_cons, config_get_string_nil, h']
  | cons q rest ih =>
    rw [config_set_param_cons]
    by_cases h : q.key = param.key
    · have hp : ¬ param.key = key := fun e => hne e.symm
      simp [h, config_get_string_cons, hp]
    · simp only [h, if_false, config_get_string_cons, ih]

theorem config_init_arg_form_inj ( key_prefix key value key' value' : List Char)
    (hkey : '=' ∉ key) (hkey' : '=' ∉ key')
    (h : key_prefix ++ key ++ '=' :: value =
      key_prefix ++ key' ++ '=' :: value') :
    key = key' ∧ value = value' := by
  rw [List.append_assoc, List.append_assoc] at h
  have h1 := List.append_cancel_left h
  have hc := strchr_append key value '=' (by decide) hkey
  have hc' := strchr_append key' value' '=' (by decide) hkey'
  rw [h1, hc'] at hc
  have hlen : key.length = key'.length := (Option.some.inj hc).symm
  obtain ⟨hk, hv⟩ := List.append_inj h1 hlen
  exact ⟨hk, by simpa using hv⟩

theorem config_init_arg_form_match ( key_prefix key value : List Char) :
    strncmp ( key_prefix ++ key ++ '=' :: value) key_prefix
      (strlen key_prefix) = 0 := by
  rw [strncmp_strlen_eq_zero_iff, List.append_assoc]
  exact List.prefix_append _ _

theorem getElem?_append_singleton {α : Type} (l : List α) (x a : α) (i : Nat)
    (h : (l ++ [x])[i]? = some a) :
    l[i]? = some a ∨ (i = l.length ∧ a = x) := by
  by_cases hi : i < l.length
  · left
    rwa [List.getElem?_append_left hi] at h
  · right
    rw [List.getElem?_append_right (by omega)] at h
    have hlt : i - l.length < 1 := by
      by_contra hge
      rw [List.getElem?_eq_none (by simp; omega)] at h
      exact Option.noConfusion h
    have h0 : i - l.length = 0 := by omega
    rw [h0] at h
    simp at h
    exact ⟨by omega, h.symm⟩

theorem getElem?_lt_of_eq_some {α : Type} (l : List α) (a : α) (i : Nat)
    (h : l[i]? = some a) : i < l.length := by
  by_contra hge
  rw [List.getElem?_eq_none (by omega)] at h
  exact Option.noConfusion h

theorem getElem?_append_of_eq_some {α : Type} (l : List α) (x a : α) (i : Nat)
    (h : l[i]? = some a) : (l ++ [x])[i]? = some a := by
  rw [List.getElem?_append_left (getElem?_lt_of_eq_some l a i h)]
  exact h

theorem config_init_arg_foldlM_spec (KL VL : Nat) ( key_prefix : List Char)
    (args : List (List Char))
    (hform : ∀ arg ∈ args, strncmp arg key_prefix (strlen key_prefix) = 0 →
      ∃ key value, arg = key_prefix ++ key ++ '=' :: value ∧ '=' ∉ key ∧
        strlen key < KL ∧ strlen value < VL) :
    ∃ config,
      args.foldlM (config_init_arg_body KL VL key_prefix) config_init =
        some config ∧
      config.keys.Nodup ∧
      (∀ k ∈ config.keys, '=' ∉ k ∧ ∃ (i : Nat) (v : List Char),
        args[i]? = some ( key_prefix ++ k ++ '=' :: v)) ∧
      (∀ (i : Nat) (k v : List Char),
        args[i]? = some ( key_prefix ++ k ++ '=' :: v) → '=' ∉ k →
        k ∈ config.keys) ∧
      (∀ (i : Nat) (k v : List Char),
        args[i]? = some ( key_prefix ++ k ++ '=' :: v) → '=' ∉ k →
        (∀ (j : Nat) (v' : List Char), i < j →
          args[j]? ≠ some ( key_prefix ++ k ++ '=' :: v')) →
        config_get_string config k = some v) ∧
      (∀ (p q : Nat) (kp kq : List Char), p < q →
        config.keys[p]? = some kp → config.keys[q]? = some kq →
        ∃ (i : Nat) (v : List Char),
          args[i]? = some ( key_prefix ++ kp ++ '=' :: v) ∧
          ∀ (j : Nat) (v' : List Char),
            args[j]? = some ( key_prefix ++ kq ++ '=' :: v') → i < j) := by
  induction args using List.reverseRecOn with
  | nil =>
    refine ⟨config_init, rfl, ?_, ?_, ?_, ?_, ?_⟩ <;>
      simp [config_init, config_t.keys]
  | append_singleton l x ih =>
    obtain ⟨c, hc, hnd, hmem, hall, hget, hord⟩ :=
      ih (fun a ha => hform a (List.mem_append_left _ ha))
    rw [List.foldlM_append, hc]
    simp only [Option.bind_eq_bind, Option.some_bind, List.foldlM_cons,
      List.foldlM_nil, Option.pure_def, Option.bind_some]
    by_cases hpre : strncmp x key_prefix (strlen key_prefix) = 0
    · obtain ⟨key, value, hx, hkey, hk, hv⟩ := hform x (by simp) hpre
      subst hx
      rw [config_init_arg_body_form KL VL key_prefix c key value hkey hk hv]
      have hkeys := config_set_param_keys c { key := key, value := value }
      simp only at hkeys
      have hlast : (l ++ [ key_prefix ++ key ++ '=' :: value])[l.length]? =
          some ( key_prefix ++ key ++ '=' :: value) := by simp
      refine ⟨_, rfl, ?_, ?_, ?_, ?_, ?_⟩
      · rw [hkeys]
        split
        · exact hnd
        · rename_i hnot
          refine List.Nodup.append hnd (List.nodup_singleton _) ?_
          intro a ha hb
          simp only [List.mem_singleton] at hb
          subst hb
          exact hnot ha
      · intro k hkmem
        rw [hkeys] at hkmem
        have hcases : k ∈ c.keys ∨ k = key := by
          split at hkmem
          · exact Or.inl hkmem
          · simpa using hkmem
        rcases hcases with h1 | h1
        · obtain ⟨hne, i, v, hiv⟩ := hmem k h1
          exact ⟨hne, i, v, getElem?_append_of_eq_some _ _ _ _ hiv⟩
        · subst h1
          exact ⟨hkey, l.length, value, hlast⟩
      · intro i k v hiv hk'
        rw [hkeys]
        have hcases : k ∈ c.keys ∨ k = key := by
          rcases getElem?_append_singleton _ _ _ _ hiv with h1 | ⟨-, h1⟩
          · exact Or.inl (hall i k v h1 hk')
          · exact Or.inr (config_init_arg_form_inj _ _ _ _ _ hk' hkey h1).1
        split
        · rcases hcases with h1 | h1
          · exact h1
          · rw [h1]
            assumption
        · rcases hcases with h1 | h1
          · exact List.mem_append_left _ h1
          · simp [h1]
      · intro i k v hiv hk' hlater
        rcases getElem?_append_singleton _ _ _ _ hiv with h1 | ⟨-, h1⟩
        · have hi : i < l.length := getElem?_lt_of_eq_some _ _ _ h1
          have hne : k ≠ key := by
            intro e
            subst e
            exact hlater l.length value hi hlast
          rw [config_get_string_set_param_ne c _ k hne]
          apply hget i k v h1 hk'
          intro j v' hij hj
          exact hlater j v' hij (getElem?_append_of_eq_some _ _ _ _ hj)
        · obtain ⟨e1, e2⟩ := config_init_arg_form_inj _ _ _ _ _ hk' hkey h1
          subst e1 e2
          exact config_get_string_set_param_self c k v
      · intro p q kp kq hpq hp hq
        rw [hkeys] at hp hq
        have hold : ∀ (kq : List Char), c.keys[p]? = some kp →
            c.keys[q]? = some kq →
            ∃ (i : Nat) (v : List Char),
              (l ++ [ key_prefix ++ key ++ '=' :: value])[i]? =
                some ( key_prefix ++ kp ++ '=' :: v) ∧
              ∀ (j : Nat) (v' : List Char),
                (l ++ [ key_prefix ++ key ++ '=' :: value])[j]? =
                  some ( key_prefix ++ kq ++ '=' :: v') → i < j := by
          intro kq hp hq
          obtain ⟨i, v, hiv, hmin⟩ := hord p q kp kq hpq hp hq
          refine ⟨i, v, getElem?_append_of_eq_some _ _ _ _ hiv, ?_⟩
          intro j v' hj
          rcases getElem?_append_singleton _ _ _ _ hj with h1 | ⟨h1, -⟩
          · exact hmin j v' h1
          · rw [h1]
            exact getElem?_lt_of_eq_some _ _ _ hiv
        by_cases hnot : key ∈ c.keys
        · rw [if_pos hnot] at hp hq
          exact hold kq hp hq
        · rw [if_neg hnot] at hp hq
          by_cases hq' : q < c.keys.length
          · rw [List.getElem?_append_left hq'] at hq
            rw [List.getElem?_append_left (by omega)] at hp
            exact hold kq hp hq
          · have hqlen := getElem?_lt_of_eq_some _ _ _ hq
            simp only [List.length_append, List.length_singleton] at hqlen
            have hqeq : q = c.keys.length := by omega
            rw [List.getElem?_append_left (by omega)] at hp
            have hkq : kq = key := by
              subst hqeq
              simpa using hq.symm
            subst hkq
            have hpmem : kp ∈ c.keys := List.mem_iff_getElem?.mpr ⟨p, hp⟩
            obtain ⟨-, i, v, hiv⟩ := hmem kp hpmem
            refine ⟨i, v, getElem?_append_of_eq_some _ _ _ _ hiv, ?_⟩
            intro j v' hj
            rcases getElem?_append_singleton _ _ _ _ hj with h1 | ⟨h1, -⟩
            · exact absurd (hall j kq v' h1 hkey) hnot
            · rw [h1]
              exact getElem?_lt_of_eq_some _ _ _ hiv
    · rw [config_init_arg_body_no_match KL VL key_prefix c x hpre]
      have hnot : ∀ (k v : List Char), x ≠ key_prefix ++ k ++ '=' :: v := by
        intro k v e
        rw [e] at hpre
        exact hpre (config_init_arg_form_match key_prefix k v)
      refine ⟨c, rfl, hnd, ?_, ?_, ?_, ?_⟩
      · intro k hkmem
        obtain ⟨hne, i, v, hiv⟩ := hmem k hkmem
        exact ⟨hne, i, v, getElem?_append_of_eq_some _ _ _ _ hiv⟩
      · intro i k v hiv hk'
        rcases getElem?_append_singleton _ _ _ _ hiv with h1 | ⟨-, h1⟩
        · exact hall i k v h1 hk'
        · exact absurd h1.symm (hnot k v)
      · intro i k v hiv hk' hlater
        rcases getElem?_append_singleton _ _ _ _ hiv with h1 | ⟨-, h1⟩
        · apply hget i k v h1 hk'
          intro j v' hij hj
          exact hlater j v' hij (getElem?_append_of_eq_some _ _ _ _ hj)
        · exact absurd h1.symm (hnot k v)
      · intro p q kp kq hpq hp hq
        obtain ⟨i, v, hiv, hmin⟩ := hord p q kp kq hpq hp hq
        refine ⟨i, v, getElem?_append_of_eq_some _ _ _ _ hiv, ?_⟩
        intro j v' hj
        rcases getElem?_append_singleton _ _ _ _ hj with h1 | ⟨-, h1⟩
        · exact hmin j v' h1
        · exact absurd h1.symm (hnot kq v')

/-- C6: argument parsing of `config_init_arg`, for every argument vector
(`argc` being its length) in which every argument at a position `i >= 1` that
starts with the prefix has the form `key_prefix ++ key ++ "=" ++ value`, with
a key without `=`, and fits the buffers. `config_init_arg` returns a
configuration. For an argument of that form at a position `i >= 1` that no
later argument repeats the key of, `config_get_string` returns its value for
its key: the value is the text after the first `=`, and of several arguments
with one key the last one wins. Every such key is stored, the stored keys are
pairwise distinct, and they appear in the order of their first occurrence:
of two stored keys, the earlier one occurs in an argument that comes before
every argument carrying the later one. -/
theorem config_init_arg_parse (KL VL : Nat) (argv : List (List Char))
    ( key_prefix : List Char)
    (hform : ∀ (i : Nat) (arg : List Char), 1 ≤ i → argv[i]? = some arg →
      strncmp arg key_prefix (strlen key_prefix) = 0 →
      ∃ key value, arg = key_prefix ++ key ++ '=' :: value ∧ '=' ∉ key ∧
        strlen key < KL ∧ strlen value < VL) :
    ∃ config,
      config_init_arg KL VL argv.length argv key_prefix = some config ∧
      (∀ (i : Nat) (key value : List Char), 1 ≤ i →
        argv[i]? = some ( key_prefix ++ key ++ '=' :: value) → '=' ∉ key →
        (∀ (j : Nat) (value' : List Char), i < j →
          argv[j]? ≠ some ( key_prefix ++ key ++ '=' :: value')) →
        config_get_string config key = some value) ∧
      (∀ (i : Nat) (key value : List Char), 1 ≤ i →
        argv[i]? = some ( key_prefix ++ key ++ '=' :: value) → '=' ∉ key →
        key ∈ config.keys) ∧
      config.keys.Nodup ∧
      (∀ (p q : Nat) (key key' : List Char), p < q →
        config.keys[p]? = some key → config.keys[q]? = some key' →
        ∃ (i : Nat) (value : List Char), 1 ≤ i ∧
          argv[i]? = some ( key_prefix ++ key ++ '=' :: value) ∧
          ∀ (j : Nat) (value' : List Char), 1 ≤ j →
            argv[j]? = some ( key_prefix ++ key' ++ '=' :: value') → i < j) := by
  have hidx : ∀ (i : Nat), 1 ≤ i → argv[i]? = (argv.drop 1)[i - 1]? := by
    intro i hi
    rw [List.getElem?_drop]
    congr 1
    omega
  have hargs : ∀ arg ∈ argv.drop 1,
      strncmp arg key_prefix (strlen key_prefix) = 0 →
      ∃ key value, arg = key_prefix ++ key ++ '=' :: value ∧ '=' ∉ key ∧
        strlen key < KL ∧ strlen value < VL := by
    intro arg harg
    obtain ⟨n, hn⟩ := List.mem_iff_getElem?.mp harg
    rw [List.getElem?_drop] at hn
    exact hform (1 + n) arg (by omega) hn
  obtain ⟨config, hfold, hnd, -, hall, hget, hord⟩ :=
    config_init_arg_foldlM_spec KL VL key_prefix (argv.drop 1) hargs
  refine ⟨config, ?_, ?_, ?_, hnd, ?_⟩
  · rw [config_init_arg_eq_foldlM]
    exact hfold
  · intro i key value hi harg hkey hlater
    rw [hidx i hi] at harg
    apply hget (i - 1) key value harg hkey
    intro j value' hij hj
    rw [List.getElem?_drop] at hj
    exact hlater (1 + j) value' (by omega) hj
  · intro i key value hi harg hkey
    rw [hidx i hi] at harg
    exact hall (i - 1) key value harg hkey
  · intro p q key key' hpq hp hq
    obtain ⟨i, value, hi, hmin⟩ := hord p q key key' hpq hp hq
    rw [List.getElem?_drop] at hi
    refine ⟨1 + i, value, by omega, hi, ?_⟩
    intro j value' hj hjarg
    rw [hidx j hj] at hjarg
    have := hmin (j - 1) value' hjarg
    omega

theorem config_init_arg_parse_witness :
    ∃ config,
      config_init_arg 16 16
          (["lsftdi".toList, "--debug=1".toList, "x".toList,
            "--timeout=2".toList, "--debug=3=4".toList] : List (List Char)).length
          ["lsftdi".toList, "--debug=1".toList, "x".toList,
            "--timeout=2".toList, "--debug=3=4".toList]
          "--".toList = some config ∧
      config_get_string config "debug".toList = some "3=4".toList ∧
      config.keys = ["debug".toList, "timeout".toList] := by
  have hform : ∀ (i : Nat) (arg : List Char), 1 ≤ i →
      (["lsftdi".toList, "--debug=1".toList, "x".toList,
        "--timeout=2".toList, "--debug=3=4".toList] : List (List Char))[i]? =
        some arg →
      strncmp arg "--".toList (strlen "--".toList) = 0 →
      ∃ key value, arg = "--".toList ++ key ++ '=' :: value ∧ '=' ∉ key ∧
        strlen key < 16 ∧ strlen value < 16 := by
    intro i arg hi harg hpre
    match i, hi with
    | 1, _ =>
      simp at harg
      subst harg
      exact ⟨"debug".toList, "1".toList, by decide⟩
    | 2, _ =>
      simp at harg
      subst harg
      exact absurd hpre (by decide)
    | 3, _ =>
      simp at harg
      subst harg
      exact ⟨"timeout".toList, "2".toList, by decide⟩
    | 4, _ =>
      simp at harg
      subst harg
      exact ⟨"debug".toList, "3=4".toList, by decide⟩
    | n + 5, _ => simp at harg
  obtain ⟨config, hres, hget, -, -, -⟩ :=
    config_init_arg_parse 16 16
      ["lsftdi".toList, "--debug=1".toList, "x".toList,
        "--timeout=2".toList, "--debug=3=4".toList] "--".toList hform
  refine ⟨config, hres, ?_, ?_⟩
  · apply hget 4 "debug".toList "3=4".toList (by decide) (by decide) (by decide)
    intro j value' hj
    have hnone : (["lsftdi".toList, "--debug=1".toList, "x".toList,
        "--timeout=2".toList, "--debug=3=4".toList] : List (List Char))[j]? =
        none := List.getElem?_eq_none (by simpa using hj)
    rw [hnone]
    exact Option.noConfusion
  · have hval : config_init_arg 16 16
          (["lsftdi".toList, "--debug=1".toList, "x".toList,
            "--timeout=2".toList, "--debug=3=4".toList] : List (List Char)).length
          ["lsftdi".toList, "--debug=1".toList, "x".toList,
            "--timeout=2".toList, "--debug=3=4".toList]
          "--".toList =
        some { params := [{ key := "debug".toList, value := "3=4".toList },
          { key := "timeout".toList, value := "2".toList }] } := by decide
    rw [hval] at hres
    cases hres
    decide

/-! ## The listing tool: facts -/

theorem main_loop_eq_map {ftdi_device_t : Type} (devices : List ftdi_device_t) :
    main_loop devices = devices.map stdout_call.ftdi_print := by
  induction devices with
  | nil => rfl
  | cons dev rest ih => simp [main_loop, ih]

/-- C7: the output of `main` of `lsftdi.c`, when the option parser returns to
it. With zero devices in the initialized context, `main` makes exactly one
call on `stdout`, the `fprintf` of the line "No devices found.", and no
`ftdi_print`. With `n > 0` devices it makes exactly `n` calls, the call
number `i` being `ftdi_print` of the device at index `i`, and no `fprintf`.
In both cases it returns `0`. -/
theorem main_output {ftdi_device_t : Type}
    (config_parser_parse : Int → List (List Char) → Bool)
    (ftdi_context_init : List ftdi_device_t) (argc : Int)
    (argv : List (List Char)) (hparse : config_parser_parse argc argv = true) :
    (ftdi_context_init.length = 0 →
        main config_parser_parse ftdi_context_init argc argv =
          some ([stdout_call.fprintf "No devices found.\n"], 0)) ∧
      (0 < ftdi_context_init.length →
        ∃ out, main config_parser_parse ftdi_context_init argc argv =
            some (out, 0) ∧
          out.length = ftdi_context_init.length ∧
          (∀ (i : Nat) (dev : ftdi_device_t),
            ftdi_context_init[i]? = some dev →
            out[i]? = some (stdout_call.ftdi_print dev)) ∧
          ∀ text : String, stdout_call.fprintf text ∉ out) := by
  constructor
  · intro h0
    simp [main, hparse, h0]
  · intro hpos
    have hne : ftdi_context_init.length ≠ 0 := by omega
    refine ⟨main_loop ftdi_context_init, ?_, ?_, ?_, ?_⟩
    · simp only [main, hparse, if_true]
      rw [if_pos hne]
    · simp [main_loop_eq_map]
    · intro i dev hdev
      simp [main_loop_eq_map, hdev]
    · intro text
      simp [main_loop_eq_map]

theorem main_output_witness :
    main (fun _ _ => true) ([] : List Nat) 1 ["lsftdi".toList] =
        some ([stdout_call.fprintf "No devices found.\n"], 0) ∧
      ∃ out, main (fun _ _ => true) [10, 20] 1 ["lsftdi".toList] =
          some (out, 0) ∧
        out = [stdout_call.ftdi_print 10, stdout_call.ftdi_print 20] := by
  refine ⟨(main_output (fun _ _ => true) ([] : List Nat) 1 ["lsftdi".toList]
    rfl).1 rfl, ?_⟩
  obtain ⟨out, hout, hlen, hget, -⟩ :=
    (main_output (fun _ _ => true) [10, 20] 1 ["lsftdi".toList] rfl).2
      (by decide)
  refine ⟨out, hout, ?_⟩
  apply List.ext_getElem?
  intro i
  match i with
  | 0 => simpa using hget 0 10 rfl
  | 1 => simpa using hget 1 20 rfl
  | n + 2 =>
    rw [List.getElem?_eq_none (by simp at hlen; omega)]
    simp

/-! ## USB error codes: facts -/

/-- C8 (as stated) fails: `usb.h` defines fourteen failure codes, not
thirteen, and section 4.4 of the specification lists fourteen kinds. -/
theorem usb_failure_codes_not_thirteen :
    ¬ (usb_failure_codes.length = 13) ∧ ¬ (spec_failure_kinds.length = 13) := by
  decide

/-- C8 (as amended): the USB error taxonomy consists of the success kind
`None` and exactly fourteen failure kinds, the ones that section 4.4 of the
specification lists, and the error codes defined in `usb.h` are exactly that
set: `USB_ERROR_NONE`, then one macro for each listed kind, in the order of
the list, and nothing else. -/
theorem usb_error_codes_taxonomy :
    spec_failure_kinds.length = 14 ∧ spec_failure_kinds.Nodup ∧
      usb_failure_codes.length = 14 ∧
      usb_failure_codes.map Prod.fst =
        spec_failure_kinds.map usb_error_name ∧
      usb_error_codes.map Prod.fst =
        usb_error_name "None" :: spec_failure_kinds.map usb_error_name ∧
      usb_error_codes.map Prod.snd = (List.range 15).map Int.ofNat := by
  decide

/-- C9: the outcome spaces of a transfer are disjoint. The error codes of
`usb.h` are pairwise distinct, `USB_ERROR_NONE` is `0` and every failure code
is strictly positive. So the value a transfer returns for a failure kind, the
negated code, is strictly negative and equals no byte count, and two distinct
failure kinds give two distinct return values. -/
theorem usb_transfer_outcomes_disjoint :
    (usb_error_codes.map Prod.snd).Nodup ∧ USB_ERROR_NONE = 0 ∧
      (∀ e ∈ usb_failure_codes, 0 < e.2) ∧
      (∀ e ∈ usb_failure_codes, usb_transfer_failure e.2 < 0) ∧
      (∀ e ∈ usb_failure_codes, ∀ num : Nat,
        usb_transfer_failure e.2 ≠ (num : Int)) ∧
      (∀ e ∈ usb_failure_codes, ∀ e' ∈ usb_failure_codes, e.1 ≠ e'.1 →
        usb_transfer_failure e.2 ≠ usb_transfer_failure e'.2) := by
  have hneg : ∀ e ∈ usb_failure_codes, usb_transfer_failure e.2 < 0 := by
    decide
  refine ⟨by decide, rfl, by decide, hneg, ?_, by decide⟩
  intro e he num hnum
  have := hneg e he
  omega

/-! ## Device lookup: facts -/

theorem usb_context_match_vendor_product_loop_succ (vendor_id product_id : Int)
    (devices : List usb_device_t) (i : Nat) :
    usb_context_match_vendor_product_loop vendor_id product_id devices (i + 1) =
      (usb_context_match_vendor_product_loop vendor_id product_id devices i).map
        (· + 1) := by
  induction devices generalizing i with
  | nil => simp [usb_context_match_vendor_product_loop]
  | cons dev rest ih =>
    by_cases h : dev.vendor_id = vendor_id ∧ dev.product_id = product_id
    · simp [usb_context_match_vendor_product_loop, h]
    · simp only [usb_context_match_vendor_product_loop, h, if_false, ih]

theorem usb_context_match_vendor_product_cons (dev : usb_device_t)
    (rest : List usb_device_t) (vendor_id product_id : Int) :
    usb_context_match_vendor_product { devices := dev :: rest } vendor_id
        product_id =
      if dev.vendor_id = vendor_id ∧ dev.product_id = product_id then some 0
      else (usb_context_match_vendor_product { devices := rest } vendor_id
        product_id).map (· + 1) := by
  simp only [usb_context_match_vendor_product,
    usb_context_match_vendor_product_loop,
    usb_context_match_vendor_product_loop_succ]

/-- C10: first-match lookup, for every device list and every vendor and
product ID. `usb_context_match_vendor_product` returns the entry at index
`i` exactly when that entry has both IDs equal to the arguments and no entry
before it has; it returns null exactly when no entry matches. In particular,
with three devices of which only the one at index 1 matches, it returns the
entry at index 1. -/
theorem usb_context_match_vendor_product_first (context : usb_context_t)
    (vendor_id product_id : Int) :
    (∀ i : Nat,
        usb_context_match_vendor_product context vendor_id product_id =
            some i ↔
          (∃ dev, context.devices[i]? = some dev ∧
            dev.vendor_id = vendor_id ∧ dev.product_id = product_id) ∧
          ∀ (j : Nat) (dev : usb_device_t), j < i →
            context.devices[j]? = some dev →
            ¬ (dev.vendor_id = vendor_id ∧ dev.product_id = product_id)) ∧
      (usb_context_match_vendor_product context vendor_id product_id = none ↔
        ∀ dev ∈ context.devices,
          ¬ (dev.vendor_id = vendor_id ∧ dev.product_id = product_id)) ∧
      (∀ dev0 dev1 dev2 : usb_device_t,
        context.devices = [dev0, dev1, dev2] →
        ¬ (dev0.vendor_id = vendor_id ∧ dev0.product_id = product_id) →
        (dev1.vendor_id = vendor_id ∧ dev1.product_id = product_id) →
        ¬ (dev2.vendor_id = vendor_id ∧ dev2.product_id = product_id) →
        usb_context_match_vendor_product context vendor_id product_id =
          some 1) := by
  obtain ⟨devices⟩ := context
  refine ⟨?_, ?_, ?_⟩
  · induction devices with
    | nil =>
      intro i
      simp [usb_context_match_vendor_product,
        usb_context_match_vendor_product_loop]
    | cons d rest ih =>
      intro i
      rw [usb_context_match_vendor_product_cons]
      by_cases h : d.vendor_id = vendor_id ∧ d.product_id = product_id
      · rw [if_pos h]
        cases i with
        | zero =>
          simp only [true_iff]
          exact ⟨⟨d, by simp, h⟩, fun j dev hj => absurd hj (by omega)⟩
        | succ i =>
          constructor
          · intro h0
            exact absurd (Option.some.inj h0) (by omega)
          · rintro ⟨-, hmin⟩
            exact absurd h (hmin 0 d (by omega) (by simp))
      · rw [if_neg h]
        cases i with
        | zero =>
          constructor
          · intro h0
            simp at h0
          · rintro ⟨⟨dev, hdev, hm⟩, -⟩
            simp only [List.getElem?_cons_zero, Option.some.injEq] at hdev
            subst hdev
            exact absurd hm h
        | succ i =>
          simp only [Option.map_eq_some', add_left_inj, exists_eq_right,
            List.getElem?_cons_succ]
          rw [ih i]
          constructor
          · rintro ⟨hex, hmin⟩
            refine ⟨hex, ?_⟩
            intro j dev hj hdev
            cases j with
            | zero =>
              simp only [List.getElem?_cons_zero, Option.some.injEq] at hdev
              subst hdev
              exact h
            | succ j =>
              simp only [List.getElem?_cons_succ] at hdev
              exact hmin j dev (by omega) hdev
          · rintro ⟨hex, hmin⟩
            refine ⟨hex, ?_⟩
            intro j dev hj hdev
            exact hmin (j + 1) dev (by omega) (by simpa using hdev)
  · induction devices with
    | nil =>
      simp [usb_context_match_vendor_product,
        usb_context_match_vendor_product_loop]
    | cons d rest ih =>
      rw [usb_context_match_vendor_product_cons]
      by_cases h : d.vendor_id = vendor_id ∧ d.product_id = product_id
      · rw [if_pos h]
        constructor
        · intro h0
          exact Option.noConfusion h0
        · intro hall
          exact absurd h (hall d (List.mem_cons_self _ _))
      · rw [if_neg h]
        simp only [Option.map_eq_none', ih, List.mem_cons, forall_eq_or_imp]
        exact ⟨fun hr => ⟨h, hr⟩, fun hr => hr.2⟩
  · intro dev0 dev1 dev2 hdevs h0 h1 h2
    simp only at hdevs
    subst hdevs
    rw [usb_context_match_vendor_product_cons, if_neg h0,
      usb_context_match_vendor_product_cons, if_pos h1]
    rfl

theorem usb_context_match_vendor_product_first_witness :
    usb_context_match_vendor_product
      { devices := [
          { libusb_device := 1, libusb_handle := none, bus := 1, address := 2,
            vendor_id := 0x0403, product_id := 0x6010,
            class_ := usb_class_t.usb_class_hub, timeout := 0.0, num_read := 0,
            num_written := 0, error := 0 },
          { libusb_device := 2, libusb_handle := none, bus := 1, address := 3,
            vendor_id := 0x0403, product_id := 0x6001,
            class_ := usb_class_t.usb_class_vendor, timeout := 0.0,
            num_read := 0,
            num_written := 0, error := 0 },
          { libusb_device := 3, libusb_handle := none, bus := 1, address := 4,
            vendor_id := 0x0403, product_id := 0x6001,
            class_ := usb_class_t.usb_class_vendor, timeout := 0.0,
            num_read := 0,
            num_written := 0, error := 0 }] }
      0x0403 0x6001 = some 1 :=
  (usb_context_match_vendor_product_first _ 0x0403 0x6001).1 1 |>.mpr
    ⟨⟨_, rfl, by decide⟩, fun j dev hj hdev => by
      have hj0 : j = 0 := by omega
      subst hj0
      simp only [List.getElem?_cons_zero, Option.some.injEq] at hdev
      subst hdev
      decide⟩


/-! ## Sequences of calls: facts -/

theorem config_set_param_keys_nodup (config : config_t) (param : param_t)
    (h : config.keys.Nodup) : (config_set_param config param).keys.Nodup := by
  rw [config_set_param_keys]
  split
  · exact h
  · rename_i hnot
    refine List.Nodup.append h (List.nodup_singleton _) ?_
    intro a ha hb
    simp only [List.mem_singleton] at hb
    subst hb
    exact hnot ha

theorem config_set_loop_keys_nodup (params : List param_t) (config : config_t)
    (h : config.keys.Nodup) : (config_set_loop config params).keys.Nodup := by
  induction params generalizing config with
  | nil => exact h
  | cons p rest ih =>
    exact ih _ (config_set_param_keys_nodup config p h)

theorem config_init_arg_foldlM_keys_nodup (KL VL : Nat)
    ( key_prefix : List Char) (args : List (List Char))
    (config config' : config_t) (h : config.keys.Nodup)
    (hrun : args.foldlM (config_init_arg_body KL VL key_prefix) config =
      some config') :
    config'.keys.Nodup := by
  induction args generalizing config with
  | nil =>
    simp only [List.foldlM_nil, Option.pure_def, Option.some.injEq] at hrun
    rw [← hrun]
    exact h
  | cons a rest ih =>
    rw [List.foldlM_cons] at hrun
    cases hbody : config_init_arg_body KL VL key_prefix config a with
    | none => simp [hbody] at hrun
    | some config1 =>
      simp only [hbody, Option.bind_eq_bind, Option.some_bind] at hrun
      apply ih config1 _ hrun
      rcases config_init_arg_body_some KL VL key_prefix config config1 a hbody
        with ⟨-, heq⟩ | ⟨key, value, -, -, heq⟩
      · rw [heq]
        exact h
      · rw [heq]
        exact config_set_param_keys_nodup config _ h

theorem config_init_arg_loop_keys_nodup (KL VL : Nat)
    (argv : List (List Char)) ( key_prefix : List Char) (left i : Nat)
    (config config' : config_t) (h : config.keys.Nodup)
    (hrun : config_init_arg_loop KL VL argv key_prefix left i config =
      some config') :
    config'.keys.Nodup := by
  induction left generalizing i config with
  | zero =>
    simp only [config_init_arg_loop, Option.some.injEq] at hrun
    rw [← hrun]
    exact h
  | succ left ih =>
    simp only [config_init_arg_loop] at hrun
    cases harg : argv[i]? with
    | none => simp [harg] at hrun
    | some arg =>
      simp only [harg] at hrun
      cases hbody : config_init_arg_body KL VL key_prefix config arg with
      | none => simp [hbody] at hrun
      | some config1 =>
        simp only [hbody] at hrun
        apply ih (i + 1) config1 _ hrun
        rcases config_init_arg_body_some KL VL key_prefix config config1 arg
          hbody with ⟨-, heq⟩ | ⟨key, value, -, -, heq⟩
        · rw [heq]
          exact h
        · rw [heq]
          exact config_set_param_keys_nodup config _ h

theorem config_call_run_keys_nodup (KL VL : Nat) (call : config_call)
    (config config' : config_t) (h : config.keys.Nodup)
    (hrun : call.run KL VL config = some config') : config'.keys.Nodup := by
  cases call with
  | set_param param =>
    simp only [config_call.run, Option.some.injEq] at hrun
    rw [← hrun]
    exact config_set_param_keys_nodup config param h
  | set src_config =>
    simp only [config_call.run, config_set, Option.some.injEq] at hrun
    rw [← hrun]
    exact config_set_loop_keys_nodup _ config h
  | init_arg argc argv kp =>
    simp only [config_call.run, config_init_arg] at hrun
    exact config_init_arg_loop_keys_nodup KL VL argv kp _ 1 config_init config'
      (by simp [config_init, config_t.keys]) hrun

theorem config_call_run_defined (KL VL : Nat) (call : config_call)
    (config : config_t) (hdef : call.defined KL VL) :
    ∃ config', call.run KL VL config = some config' := by
  cases call with
  | set_param param => exact ⟨_, rfl⟩
  | set src_config => exact ⟨_, rfl⟩
  | init_arg argc argv kp =>
    obtain ⟨hargc, hform⟩ := hdef
    obtain ⟨config', hfold, -⟩ :=
      config_init_arg_foldlM_spec KL VL kp (argv.drop 1) hform
    refine ⟨config', ?_⟩
    simp only [config_call.run, hargc]
    rw [config_init_arg_eq_foldlM]
    exact hfold

/-- C12: the key uniqueness invariant. Starting from `config_init`, after any
sequence of calls of `config_set_param`, `config_set` and `config_init_arg`,
the keys stored in the configuration are pairwise distinct and `num_params`
is the number of stored entries, which is also the number of distinct keys.
The sequence has such a result whenever each of its calls is defined. -/
theorem config_calls_keys_nodup (KL VL : Nat) (calls : List config_call) :
    (∀ config, config_calls KL VL calls config_init = some config →
        config.keys.Nodup ∧ config.num_params = config.params.length ∧
          config.num_params = config.keys.dedup.length) ∧
      ((∀ call ∈ calls, call.defined KL VL) →
        ∃ config, config_calls KL VL calls config_init = some config) := by
  have hinv : ∀ (calls : List config_call) (start config : config_t),
      start.keys.Nodup → config_calls KL VL calls start = some config →
      config.keys.Nodup := by
    intro calls
    induction calls with
    | nil =>
      intro start config hs hrun
      simp only [config_calls, Option.some.injEq] at hrun
      rw [← hrun]
      exact hs
    | cons call rest ih =>
      intro start config hs hrun
      simp only [config_calls] at hrun
      cases hcall : call.run KL VL start with
      | none => simp [hcall] at hrun
      | some config1 =>
        simp only [hcall] at hrun
        exact ih config1 config
          (config_call_run_keys_nodup KL VL call start config1 hs hcall) hrun
  have hdef : ∀ (calls : List config_call) (start : config_t),
      (∀ call ∈ calls, call.defined KL VL) →
      ∃ config, config_calls KL VL calls start = some config := by
    intro calls
    induction calls with
    | nil =>
      intro start _
      exact ⟨start, rfl⟩
    | cons call rest ih =>
      intro start hall
      obtain ⟨config1, h1⟩ := config_call_run_defined KL VL call start
        (hall call (List.mem_cons_self _ _))
      obtain ⟨config, h2⟩ := ih config1
        (fun c hc => hall c (List.mem_cons_of_mem _ hc))
      refine ⟨config, ?_⟩
      simp only [config_calls, h1]
      exact h2
  refine ⟨?_, hdef calls config_init⟩
  intro config hrun
  have hnd := hinv calls config_init config
    (by simp [config_init, config_t.keys]) hrun
  refine ⟨hnd, rfl, ?_⟩
  rw [List.Nodup.dedup hnd]
  simp [config_t.num_params, config_t.keys]

theorem config_calls_keys_nodup_witness :
    (config_t.keys
        { params := [{ key := "debug".toList, value := "2".toList },
          { key := "timeout".toList, value := "1".toList }] }).Nodup ∧
      config_t.num_params
        { params := [{ key := "debug".toList, value := "2".toList },
          { key := "timeout".toList, value := "1".toList }] } = 2 :=
  have h := (config_calls_keys_nodup 16 16
    [config_call.init_arg 3
        ["lsftdi".toList, "--debug=0".toList, "--timeout=1".toList] "--".toList,
      config_call.set_param { key := "debug".toList, value := "1".toList },
      config_call.set
        { params := [{ key := "debug".toList, value := "2".toList }] }]).1
    { params := [{ key := "debug".toList, value := "2".toList },
      { key := "timeout".toList, value := "1".toList }] } (by decide)
  ⟨h.1, by decide⟩

/-! ## An argument without `=`: facts -/

theorem config_init_arg_body_no_equals (KL VL : Nat) ( key_prefix : List Char)
    (config : config_t) (arg : List Char)
    (hpre : strncmp arg key_prefix (strlen key_prefix) = 0)
    (hno : '=' ∉ arg.drop (strlen key_prefix)) :
    config_init_arg_body KL VL key_prefix config arg = none := by
  have hchr : strchr (arg.drop (strlen key_prefix)) '=' = none :=
    (strchr_eq_none_iff _ '=' (by decide)).mpr hno
  simp [config_init_arg_body, hpre, hchr]

theorem config_init_arg_foldlM_none (KL VL : Nat) ( key_prefix : List Char)
    (args : List (List Char)) (arg : List Char) (harg : arg ∈ args)
    (hnone : ∀ config, config_init_arg_body KL VL key_prefix config arg = none)
    (config : config_t) :
    args.foldlM (config_init_arg_body KL VL key_prefix) config = none := by
  induction args generalizing config with
  | nil => simp at harg
  | cons a rest ih =>
    rw [List.foldlM_cons]
    cases hbody : config_init_arg_body KL VL key_prefix config a with
    | none => rfl
    | some config1 =>
      simp only [Option.bind_eq_bind, Option.some_bind]
      rcases List.mem_cons.mp harg with h | h
      · rw [← h, hnone config] at hbody
        exact Option.noConfusion hbody
      · exact ih h config1

/-- C13 (the code departs from it): `config_init_arg` is not defined on every
argument vector. For an argument at a position `i >= 1` that starts with the
prefix and holds no `=` after it, `strchr` returns null, the length
`value_pos - key_pos` given to `strncpy` is undefined, and the test
`if (value)`, made on the local array and not on `value_pos`, never takes the
branch `value[0] = 0`: the call has no result, and no parameter with the
remainder as key and the empty value is stored. -/
theorem config_init_arg_no_equals (KL VL : Nat) (argv : List (List Char))
    ( key_prefix : List Char) (i : Nat) (arg : List Char) (hi : 1 ≤ i)
    (harg : argv[i]? = some arg)
    (hpre : strncmp arg key_prefix (strlen key_prefix) = 0)
    (hno : '=' ∉ arg.drop (strlen key_prefix)) :
    config_init_arg KL VL argv.length argv key_prefix = none := by
  rw [config_init_arg_eq_foldlM]
  apply config_init_arg_foldlM_none KL VL key_prefix _ arg
  · apply List.mem_iff_getElem?.mpr
    refine ⟨i - 1, ?_⟩
    rw [List.getElem?_drop]
    have h1 : 1 + (i - 1) = i := by omega
    rw [h1]
    exact harg
  · intro config
    exact config_init_arg_body_no_equals KL VL key_prefix config arg hpre hno

theorem config_init_arg_no_equals_witness :
    config_init_arg 64 64 2 ["lsftdi".toList, "--verbose".toList] "--".toList =
      none :=
  config_init_arg_no_equals 64 64 ["lsftdi".toList, "--verbose".toList]
    "--".toList 1 "--verbose".toList (by decide) (by decide) (by decide)
    (by decide)

/-! ## Merging two configurations: facts -/

theorem config_set_loop_keys (params : List param_t) (config : config_t)
    (hnd : (params.map param_t.key).Nodup) :
    (config_set_loop config params).keys =
      config.keys ++
        (params.map param_t.key).filter (fun k => decide (k ∉ config.keys)) := by
  induction params generalizing config with
  | nil => simp [config_set_loop]
  | cons p rest ih =>
    simp only [List.map_cons, List.nodup_cons] at hnd
    obtain ⟨hp, hrest⟩ := hnd
    simp only [config_set_loop, List.map_cons]
    rw [ih _ hrest, config_set_param_keys, List.filter_cons]
    by_cases hin : p.key ∈ config.keys
    · simp [hin]
    · simp only [hin, if_false, not_false_eq_true, decide_True, if_true,
        List.append_assoc, List.singleton_append, List.cons.injEq, true_and,
        List.append_cancel_left_eq]
      apply List.filter_congr
      intro k hk
      have hne : k ≠ p.key := fun e => hp (e ▸ hk)
      simp [hne]

theorem config_set_loop_get_string_not_mem (params : List param_t)
    (config : config_t) (key : List Char)
    (hkey : key ∉ params.map param_t.key) :
    config_get_string (config_set_loop config params) key =
      config_get_string config key := by
  induction params generalizing config with
  | nil => rfl
  | cons p rest ih =>
    simp only [List.map_cons, List.mem_cons, not_or] at hkey
    simp only [config_set_loop]
    rw [ih _ hkey.2, config_get_string_set_param_ne config p key hkey.1]

theorem config_set_loop_get_string_mem (params : List param_t)
    (config : config_t) (hnd : (params.map param_t.key).Nodup) (p : param_t)
    (hp : p ∈ params) :
    config_get_string (config_set_loop config params) p.key = some p.value := by
  induction params generalizing config with
  | nil => simp at hp
  | cons q rest ih =>
    simp only [List.map_cons, List.nodup_cons] at hnd
    simp only [config_set_loop]
    rcases List.mem_cons.mp hp with h | h
    · subst h
      rw [config_set_loop_get_string_not_mem rest _ p.key hnd.1]
      exact config_get_string_set_param_self config p.key p.value
    · exact ih _ hnd.2 h

theorem config_set_param_getElem?_ne (config : config_t) (param p : param_t)
    (i : Nat) (hi : config.params[i]? = some p) (hne : p.key ≠ param.key) :
    (config_set_param config param).params[i]? = some p := by
  obtain ⟨params⟩ := config
  induction params generalizing i with
  | nil => simp at hi
  | cons q rest ih =>
    rw [config_set_param_cons]
    by_cases h : q.key = param.key
    · simp only [h, if_true]
      cases i with
      | zero =>
        simp only [List.getElem?_cons_zero, Option.some.injEq] at hi
        subst hi
        exact absurd h hne
      | succ i => simpa using hi
    · simp only [h, if_false]
      cases i with
      | zero => simpa using hi
      | succ i =>
        simp only [List.getElem?_cons_succ] at hi ⊢
        exact ih i hi

theorem config_set_loop_getElem?_not_mem (params : List param_t)
    (config : config_t) (p : param_t) (i : Nat)
    (hi : config.params[i]? = some p)
    (hkey : p.key ∉ params.map param_t.key) :
    (config_set_loop config params).params[i]? = some p := by
  induction params generalizing config with
  | nil => exact hi
  | cons q rest ih =>
    simp only [List.map_cons, List.mem_cons, not_or] at hkey
    simp only [config_set_loop]
    exact ih _ (config_set_param_getElem?_ne config q p i hi hkey.1) hkey.2

theorem config_set_param_eq_self (config : config_t) (param : param_t)
    (h : config_get_string config param.key = some param.value) :
    config_set_param config param = config := by
  obtain ⟨params⟩ := config
  induction params with
  | nil => simp [config_get_string_nil] at h
  | cons q rest ih =>
    rw [config_get_string_cons] at h
    rw [config_set_param_cons]
    by_cases hq : q.key = param.key
    · simp only [hq, if_true, Option.some.injEq] at h
      simp only [hq, if_true]
      rw [← hq, ← h]
    · simp only [hq, if_false] at h
      simp only [hq, if_false]
      rw [ih h]

theorem config_set_loop_eq_self (params : List param_t) (config : config_t)
    (h : ∀ p ∈ params, config_get_string config p.key = some p.value) :
    config_set_loop config params = config := by
  induction params with
  | nil => rfl
  | cons q rest ih =>
    simp only [config_set_loop]
    rw [config_set_param_eq_self config q (h q (List.mem_cons_self _ _))]
    exact ih (fun p hp => h p (List.mem_cons_of_mem _ hp))

/-- C14: merge semantics of `config_set`, for every destination and every
source with pairwise distinct keys (the keys of the destination need not be
distinct). After `config_set(dst, src)` every key of the source maps in the
destination to the value of the source; every entry of the destination whose
key is not in the source keeps its value and position, and every such key its
value; the keys are those of the destination followed by the keys new to
it, in the order of the source; the source is unchanged. A second
`config_set(dst, src)` leaves the destination unchanged. -/
theorem config_set_merge (dst_config src_config : config_t)
    (hsrc : src_config.keys.Nodup) :
    (∀ p ∈ src_config.params,
        config_get_string (config_set dst_config src_config).1 p.key =
          some p.value) ∧
      (∀ (i : Nat) (p : param_t), dst_config.params[i]? = some p →
        p.key ∉ src_config.keys →
        (config_set dst_config src_config).1.params[i]? = some p) ∧
      (∀ key : List Char, key ∉ src_config.keys →
        config_get_string (config_set dst_config src_config).1 key =
          config_get_string dst_config key) ∧
      (config_set dst_config src_config).1.keys =
        dst_config.keys ++
          src_config.keys.filter (fun k => decide (k ∉ dst_config.keys)) ∧
      (config_set dst_config src_config).2 = src_config ∧
      (config_set (config_set dst_config src_config).1
          (config_set dst_config src_config).2).1 =
        (config_set dst_config src_config).1 := by
  have hget : ∀ p ∈ src_config.params,
      config_get_string (config_set dst_config src_config).1 p.key =
        some p.value :=
    fun p hp => config_set_loop_get_string_mem _ dst_config hsrc p hp
  refine ⟨hget, ?_, ?_, ?_, rfl, ?_⟩
  · intro i p hi hkey
    exact config_set_loop_getElem?_not_mem _ dst_config p i hi hkey
  · intro key hkey
    exact config_set_loop_get_string_not_mem _ dst_config key hkey
  · exact config_set_loop_keys _ dst_config hsrc
  · exact config_set_loop_eq_self _ _ hget

theorem config_set_merge_witness :
    (config_set
        { params := [{ key := "debug".toList, value := "0".toList },
          { key := "timeout".toList, value := "1".toList }] }
        { params := [{ key := "name".toList, value := "x".toList },
          { key := "debug".toList, value := "3".toList }] }).1 =
      { params := [{ key := "debug".toList, value := "3".toList },
        { key := "timeout".toList, value := "1".toList },
        { key := "name".toList, value := "x".toList }] } := by
  have h := config_set_merge
    { params := [{ key := "debug".toList, value := "0".toList },
      { key := "timeout".toList, value := "1".toList }] }
    { params := [{ key := "name".toList, value := "x".toList },
      { key := "debug".toList, value := "3".toList }] } (by decide)
  have hval := h.1 { key := "debug".toList, value := "3".toList } (by decide)
  revert hval
  decide
/-! ## Byte accounting of transfers: facts -/

end Tulibs
